import Mathlib

/-!
Verification development for the `changesreader` library: a shallow
embedding of `src/index.js` (the `ChangesReader` class: the long-poll
loop of `start`/`get`, the session state, and `spool`) and of
`src/lib/changeprocessor.js` (the streaming batch accumulator), with
theorems about the event traces they produce.
-/

set_option maxHeartbeats 1000000

/-- One entry of the `results` array of a `_changes` response.
The long-poll loop treats records as opaque; the batch accumulator reads
their `seq` field. -/
structure ChangeRow where
  seq : String
  id : String
  deleted : Bool
deriving Repr, DecidableEq

/-- The JSON body of a successful long-poll response (`response.data`):
`results` and `last_seq`, each possibly absent (JS `undefined`).
In the model an absent string and the empty string are distinct; JS
truthiness of the empty string is handled where the code tests it. -/
structure LPData where
  results : Option (List ChangeRow)
  last_seq : Option String
deriving Repr, DecidableEq

/-- A settled long-poll request: either the axios promise fulfilled with a
body (possibly `null`, hence `Option LPData`), or it rejected, carrying
`err.response.status` when a response exists (`none` = no response at
all). `elapsed` is the wall-clock time the request took, i.e. the
`timeSinceLastReq = getTS() - lastReqTS` the code computes. -/
inductive LPResponse where
  | success (data : Option LPData) (elapsed : Nat)
  | failure (status : Option Nat) (elapsed : Nat)
deriving Repr, DecidableEq

/-- The events the ChangesReader emits on its EventEmitter. -/
inductive Event where
  | change (c : ChangeRow)
  | seq (s : String)
  | batch (cs : List ChangeRow)
  | error (statusCode : Nat)
  | end_ (s : String)
deriving Repr, DecidableEq

/-- A CouchDB selector object (opaque for our purposes). -/
structure Selector where
  field : String
  value : String
deriving Repr, DecidableEq

/-- The mutable fields of a `ChangesReader` instance that `setDefaults`
(src/index.js lines 35-49) initialises. `eeId` models the identity of
`this.ee` (a fresh EventEmitter gets a fresh id); `cont` is the source's
`continue` field (a Lean keyword). -/
structure Session where
  eeId : Nat
  batchSize : Nat
  fastChanges : Bool
  since : String
  includeDocs : Bool
  timeout : Nat
  heartbeat : Nat
  started : Bool
  wait : Bool
  stopOnEmptyChanges : Bool
  cont : Bool
  selector : Option Selector
deriving Repr, DecidableEq

/-- `setDefaults` (src/index.js lines 35-49): resets every field and
allocates a fresh EventEmitter. -/
def setDefaults (s : Session) : Session :=
  { eeId := s.eeId + 1
    batchSize := 100
    fastChanges := false
    since := "now"
    includeDocs := false
    timeout := 60000
    heartbeat := 5000
    started := false
    wait := false
    stopOnEmptyChanges := false
    cont := true
    selector := none }

/-- The session state right after the constructor ran (`setDefaults` with
the first EventEmitter, id 0). -/
def initialSession : Session :=
  { eeId := 0
    batchSize := 100
    fastChanges := false
    since := "now"
    includeDocs := false
    timeout := 60000
    heartbeat := 5000
    started := false
    wait := false
    stopOnEmptyChanges := false
    cont := true
    selector := none }

/-- The recognised option keys of `start`/`get`/`spool` (spec section 4.1;
`Object.assign(self, opts)` overrides exactly the keys present). -/
structure Opts where
  batchSize : Option Nat
  since : Option String
  includeDocs : Option Bool
  timeout : Option Nat
  heartbeat : Option Nat
  fastChanges : Option Bool
  wait : Option Bool
  selector : Option Selector
deriving Repr, DecidableEq

/-- Options object with no keys set. -/
def noOpts : Opts :=
  { batchSize := none, since := none, includeDocs := none, timeout := none
    heartbeat := none, fastChanges := none, wait := none, selector := none }

/-- `Object.assign(self, opts)` (src/index.js line 72) restricted to the
recognised option keys: a key present in `opts` overrides the session
field, an absent key leaves it alone. -/
def applyOpts (s : Session) (o : Opts) : Session :=
  { s with
    batchSize := o.batchSize.getD s.batchSize
    since := o.since.getD s.since
    includeDocs := o.includeDocs.getD s.includeDocs
    timeout := o.timeout.getD s.timeout
    heartbeat := o.heartbeat.getD s.heartbeat
    fastChanges := o.fastChanges.getD s.fastChanges
    wait := o.wait.getD s.wait
    selector := match o.selector with
      | some sel => some sel
      | none => s.selector }

/-- Synchronous state effect of `start(opts)` (src/index.js lines 59-72,
180): if already started, return the existing emitter untouched;
otherwise set `started`, merge the options and return the emitter. The
returned `Nat` is the id of the EventEmitter handed back to the caller. -/
def ChangesReader.start (s : Session) (opts : Opts) : Session × Nat :=
  if s.started then (s, s.eeId)
  else (applyOpts { s with started := true } opts, s.eeId)

/-- `get(opts)` (src/index.js lines 186-189): set
`this.stopOnEmptyChanges = true`, then delegate to `start`. -/
def ChangesReader.get (s : Session) (opts : Opts) : Session × Nat :=
  ChangesReader.start { s with stopOnEmptyChanges := true } opts

/-- The longpoll request parameters (src/index.js lines 77-98). -/
structure ReqParams where
  feed : String
  timeout : Nat
  since : String
  limit : Nat
  include_docs : Bool
  seq_interval : Option Nat
  filter : Option String
deriving Repr, DecidableEq

/-- Build the query parameters of one long-poll request from the session
(src/index.js lines 77-98). -/
def buildParams (st : Session) : ReqParams :=
  { feed := "longpoll"
    timeout := st.timeout
    since := st.since
    limit := st.batchSize
    include_docs := st.includeDocs
    seq_interval := if st.fastChanges then some st.batchSize else none
    filter := if st.selector.isSome then some "_selector" else none }

/-- `err.statusCode = (err.response && err.response.status) || 500`
(src/index.js line 156). A missing response, and a falsy (0) status,
both normalise to 500. -/
def normStatus (status : Option Nat) : Nat :=
  match status with
  | some s => if s = 0 then 500 else s
  | none => 500

/-- The `results` list the loop iterates over: empty when `data` is null
or `data.results` is absent. -/
def resultsOf (data : Option LPData) : List ChangeRow :=
  match data with
  | some d => d.results.getD []
  | none => []

/-- `change` events of one iteration (src/index.js lines 107-112): one per
record of a non-empty `results`, in order. -/
def changeEventsOf (data : Option LPData) : List Event :=
  match data with
  | some d =>
    match d.results with
    | some rs => if 0 < rs.length then rs.map Event.change else []
    | none => []
  | none => []

/-- The cursor update of one iteration (src/index.js lines 114-118):
`data && data.last_seq && data.last_seq !== self.since` — `some s` when
the cursor is assigned `s`, `none` when it is left alone. The empty
string is falsy in JS, so it never updates the cursor. -/
def sinceUpdate (since : String) (data : Option LPData) : Option String :=
  match data with
  | some d =>
    match d.last_seq with
    | some s => if s ≠ "" ∧ s ≠ since then some s else none
    | none => none
  | none => none

/-- `continue` after the stop-on-empty check (src/index.js lines 121-123):
cleared when `stopOnEmptyChanges` is set, `data.results` is defined and
shorter than `batchSize`. -/
def contAfter (st : Session) (data : Option LPData) : Bool :=
  match data with
  | some d =>
    match d.results with
    | some rs =>
      if st.stopOnEmptyChanges ∧ rs.length < st.batchSize then false else st.cont
    | none => st.cont
  | none => st.cont

/-- The `seq` event of one iteration (src/index.js line 117): emitted
exactly when the cursor is updated, carrying the new cursor. -/
def seqEventsOf (since : String) (data : Option LPData) : List Event :=
  match sinceUpdate since data with
  | some s => [Event.seq s]
  | none => []

/-- Result of one settled iteration of the `async.doWhilst` body: the
events it emitted in order, the session afterwards, and the delay (ms)
it schedules before calling `next` (0 = immediately). -/
structure StepOut where
  events : List Event
  st : Session
  delay : Nat
deriving Repr, DecidableEq

/-- The fulfilled branch of one long-poll iteration (src/index.js lines
102-153): change events, cursor update + `seq` event, stop-on-empty
check, then the `batch` event or the pacing delay. In `wait` mode a
non-empty batch defers `next` to the consumer's acknowledgment callback;
the model assumes the consumer acknowledges (delay 0). -/
def lpSuccess (st : Session) (data : Option LPData) (elapsed : Nat) : StepOut :=
  let changeEvents := changeEventsOf data
  let upd := sinceUpdate st.since data
  let seqEvents := seqEventsOf st.since data
  let cont1 := contAfter st data
  let st1 : Session := { st with since := upd.getD st.since, cont := cont1 }
  let rs := resultsOf data
  if st.wait then
    if 0 < rs.length then
      { events := changeEvents ++ seqEvents ++ [Event.batch rs], st := st1, delay := 0 }
    else
      { events := changeEvents ++ seqEvents, st := st1
        delay := if st.timeout < elapsed then 0 else st.timeout - elapsed }
  else
    if 0 < rs.length then
      { events := changeEvents ++ seqEvents ++ [Event.batch rs], st := st1, delay := 0 }
    else if cont1 = false then
      { events := changeEvents ++ seqEvents, st := st1, delay := 0 }
    else
      { events := changeEvents ++ seqEvents, st := st1
        delay := if st.timeout < elapsed then 0 else st.timeout - elapsed }

/-- The rejected branch of one long-poll iteration (src/index.js lines
154-166): normalise the status, emit `error`, clear `continue` exactly
on a fatal client status (400-499 except 429). The cursor and all other
session fields are untouched. -/
def lpFailure (st : Session) (status : Option Nat) : StepOut :=
  let sc := normStatus status
  if 400 ≤ sc ∧ sc ≠ 429 ∧ sc < 500 then
    { events := [Event.error sc], st := { st with cont := false }, delay := 0 }
  else
    { events := [Event.error sc], st := st, delay := 0 }

/-- One settled iteration of the `async.doWhilst` body. -/
def lpStep (st : Session) (r : LPResponse) : StepOut :=
  match r with
  | .success data elapsed => lpSuccess st data elapsed
  | .failure status _ => lpFailure st status

/-- Outcome of running the loop against a finite list of settled
responses: the events emitted, the session afterwards, and how many
responses (= requests) were consumed. -/
structure RunOut where
  events : List Event
  st : Session
  consumed : Nat
deriving Repr, DecidableEq

/-- The `async.doWhilst` loop (src/index.js lines 75-177) observed
against a finite list of settled responses, one per issued request. The
body runs, then the test reads `continue`: when it is false the
completion callback emits the terminal `end` event with the final cursor
and resets the session (`setDefaults`). When the response list runs out
with `continue` still true, the run is still in flight: no `end` yet. -/
def runLP (st : Session) (resps : List LPResponse) : RunOut :=
  match resps with
  | [] => { events := [], st := st, consumed := 0 }
  | r :: rest =>
    let out := lpStep st r
    if out.st.cont then
      let tail := runLP out.st rest
      { events := out.events ++ tail.events, st := tail.st, consumed := tail.consumed + 1 }
    else
      { events := out.events ++ [Event.end_ out.st.since], st := setDefaults out.st, consumed := 1 }

/-!
## Batch accumulator (`src/lib/changeprocessor.js`)

The Transform stream receives one textual line per `_transform` call
(the upstream liner has already split the byte stream into lines).
`JSON.parse` is modelled by an arbitrary `parse : String → Option
ChangeRow` parameter: `none` is a thrown parse exception.
-/

/-- State of the change processor: the `buffer` array, the public
`lastSeq` field (initialised to "0", line 6), and the batch events
emitted so far on the shared emitter. -/
structure CPState where
  buffer : List ChangeRow
  lastSeq : String
  events : List Event
deriving Repr, DecidableEq

/-- The state of a freshly constructed change processor (lines 4-6). -/
def cpInit : CPState :=
  { buffer := [], lastSeq := "0", events := [] }

/-- `emit` (lines 9-12): publish a `batch` event and record the `seq` of
its last element (`data[data.length - 1].seq`; every call site passes a
non-empty `data`, so the `getD` fallback for the empty list is never
reached when `batchSize ≥ 1`). -/
def cpEmit (st : CPState) (data : List ChangeRow) : CPState :=
  { buffer := st.buffer
    lastSeq := ((data.getLast?).map ChangeRow.seq).getD st.lastSeq
    events := st.events ++ [Event.batch data] }

/-- Strip one trailing comma (lines 16-18): `chunk[chunk.length - 1] ===
','` is false on the empty string in JS, and `String.back "" = 'A'` here,
so both leave the empty string alone. -/
def stripComma (s : String) : String :=
  if s.back = ',' then s.dropRight 1 else s

/-- The parse-success path of `_transform` (lines 21-25): push the record;
once the buffer holds at least `batchSize` records, splice off the first
`batchSize` and emit them as one batch. -/
def cpPush (batchSize : Nat) (st : CPState) (j : ChangeRow) : CPState :=
  let buf := st.buffer ++ [j]
  if batchSize ≤ buf.length then
    cpEmit { st with buffer := buf.drop batchSize } (buf.take batchSize)
  else
    { st with buffer := buf }

/-- `_transform` (lines 14-30): strip a trailing comma, try to parse; a
parse failure only calls `done()` — the state is untouched. -/
def cpTransform (parse : String → Option ChangeRow) (batchSize : Nat)
    (st : CPState) (chunk : String) : CPState :=
  match parse (stripComma chunk) with
  | some j => cpPush batchSize st j
  | none => st

/-- `_flush` (lines 32-37): on stream end, emit the remaining buffer (if
any) as a final, possibly short, batch. -/
def cpFlush (st : CPState) : CPState :=
  if 0 < st.buffer.length then cpEmit { st with buffer := [] } st.buffer else st

/-- A whole streaming run of the change processor: feed every line, then
flush. -/
def runCP (parse : String → Option ChangeRow) (batchSize : Nat)
    (chunks : List String) : CPState :=
  cpFlush (chunks.foldl (cpTransform parse batchSize) cpInit)

/-- The records of a chunk list that parse successfully (after comma
stripping), in order. -/
def parsedRecs (parse : String → Option ChangeRow) (chunks : List String) :
    List ChangeRow :=
  chunks.filterMap (fun c => parse (stripComma c))

/-- The payloads of the `batch` events of a trace, in order. -/
def batchLists (evs : List Event) : List (List ChangeRow) :=
  evs.filterMap (fun e => match e with
    | Event.batch l => some l
    | _ => none)

/-- The records carried by `change` events of a trace, in order. -/
def changesOf (evs : List Event) : List ChangeRow :=
  evs.filterMap (fun e => match e with
    | Event.change c => some c
    | _ => none)

/-- The tokens carried by `seq` events of a trace, in order. -/
def seqTokens (evs : List Event) : List String :=
  evs.filterMap (fun e => match e with
    | Event.seq s => some s
    | _ => none)

/-- Whether a settled response is a fulfilled one. -/
def LPResponse.isSuccess : LPResponse → Bool
  | .success _ _ => true
  | .failure _ _ => false

/-- The response body of a settled response (`none` for a rejection). -/
def LPResponse.dataOf : LPResponse → Option LPData
  | .success d _ => d
  | .failure _ _ => none

/-- The `results` a settled response delivers ([] for a rejection). -/
def LPResponse.resultsList (r : LPResponse) : List ChangeRow :=
  resultsOf r.dataOf

/-- The successive values the `since` cursor is assigned over a response
list (src/index.js lines 114-118 applied iteratively). -/
def cursorUpdates (since : String) : List LPResponse → List String
  | [] => []
  | r :: rest =>
    match sinceUpdate since r.dataOf with
    | some s => s :: cursorUpdates s rest
    | none => cursorUpdates since rest

/-- The cursor after a response list has been consumed. -/
def finalCursor (since : String) : List LPResponse → String
  | [] => since
  | r :: rest => finalCursor ((sinceUpdate since r.dataOf).getD since) rest

/-- Every `last_seq` value the server returned across a response list. -/
def serverLastSeqs (resps : List LPResponse) : List String :=
  resps.filterMap (fun r => match r.dataOf with
    | some d => d.last_seq
    | none => none)

/-!
## Spool (`src/index.js` lines 192-234)

`spool` resets the session, builds a streaming request and calls
`axios(req).then(response => ...)` with **no** rejection handler (lines
218-231): when the request promise rejects, nothing at all runs against
the emitter. When it fulfils, the response stream is piped through the
liner and the change processor; `finish` emits `end` with the
processor's `lastSeq` (after a 10 ms delay), a stream error emits
`error`.
-/

/-- How the one-shot streaming request settles. -/
inductive SpoolOutcome where
  | rejected
  | fulfilled (chunks : List String) (streamError : Option Nat)
deriving Repr, DecidableEq

/-- The events `spool` produces on the emitter for a settled outcome
(src/index.js lines 218-231). The `.then` callback has no matching
`.catch`: a rejected request promise runs no handler, so the trace is
empty. -/
def spoolEvents (parse : String → Option ChangeRow) (batchSize : Nat)
    (outcome : SpoolOutcome) : List Event :=
  match outcome with
  | .rejected => []
  | .fulfilled chunks streamError =>
    let cp := runCP parse batchSize chunks
    match streamError with
    | some e => cp.events ++ [Event.error e]
    | none => cp.events ++ [Event.end_ cp.lastSeq]

/-!
## Sample data (used by witnesses)
-/

/-- A concrete change record. -/
def rowA : ChangeRow := { seq := "1-a", id := "docA", deleted := false }

/-- A concrete change record. -/
def rowB : ChangeRow := { seq := "2-b", id := "docB", deleted := false }

/-- A concrete change record. -/
def rowC : ChangeRow := { seq := "3-c", id := "docC", deleted := true }

/-!
## Error classification (claims about src/index.js lines 154-166)
-/

/-- C2: a failed request whose normalised status is a client error other
than 429 clears `continue`, emits exactly one `error` event immediately
followed by exactly one `end` event, and consumes no further responses
no matter how many are still pending. -/
theorem fatal_client_error_stops_run
    (st : Session) (status : Option Nat) (elapsed : Nat) (rest : List LPResponse)
    (h1 : 400 ≤ normStatus status) (h2 : normStatus status < 500)
    (h3 : normStatus status ≠ 429) :
    (runLP st (LPResponse.failure status elapsed :: rest)).events =
      [Event.error (normStatus status), Event.end_ st.since] ∧
    (runLP st (LPResponse.failure status elapsed :: rest)).consumed = 1 ∧
    (lpStep st (LPResponse.failure status elapsed)).st.cont = false := by
  have hfatal : 400 ≤ normStatus status ∧ normStatus status ≠ 429 ∧
      normStatus status < 500 := ⟨h1, h3, h2⟩
  refine ⟨?_, ?_, ?_⟩ <;> simp [runLP, lpStep, lpFailure, if_pos hfatal]

/-- Witness for `fatal_client_error_stops_run` at status 401, with a
further response pending that is never consumed. -/
theorem fatal_client_error_stops_run_witness :
    (runLP initialSession
        (LPResponse.failure (some 401) 5 :: [LPResponse.success none 3])).events =
      [Event.error (normStatus (some 401)), Event.end_ initialSession.since] ∧
    (runLP initialSession
        (LPResponse.failure (some 401) 5 :: [LPResponse.success none 3])).consumed = 1 ∧
    (lpStep initialSession (LPResponse.failure (some 401) 5)).st.cont = false := by
  exact fatal_client_error_stops_run initialSession (some 401) 5
    [LPResponse.success none 3] (by decide) (by decide) (by decide)

/-- C3: a failed request whose normalised status is a server error (≥ 500,
which includes the no-response case normalised to 500) or 429 emits one
`error` event, leaves the whole session — in particular the `since`
cursor and the parameters of the retry request — unchanged, schedules
the next request with no delay, and the run then continues with the
remaining responses. -/
theorem recoverable_error_retries_unchanged_cursor
    (st : Session) (status : Option Nat) (elapsed : Nat) (rest : List LPResponse)
    (h : 500 ≤ normStatus status ∨ normStatus status = 429) :
    (lpStep st (LPResponse.failure status elapsed)).events =
      [Event.error (normStatus status)] ∧
    (lpStep st (LPResponse.failure status elapsed)).st = st ∧
    (lpStep st (LPResponse.failure status elapsed)).delay = 0 ∧
    buildParams (lpStep st (LPResponse.failure status elapsed)).st = buildParams st ∧
    (st.cont = true →
      (runLP st (LPResponse.failure status elapsed :: rest)).events =
        Event.error (normStatus status) :: (runLP st rest).events ∧
      (runLP st (LPResponse.failure status elapsed :: rest)).consumed =
        (runLP st rest).consumed + 1) := by
  have hnf : ¬(400 ≤ normStatus status ∧ normStatus status ≠ 429 ∧
      normStatus status < 500) := by omega
  have hstep : lpStep st (LPResponse.failure status elapsed) =
      { events := [Event.error (normStatus status)], st := st, delay := 0 } := by
    simp [lpStep, lpFailure, if_neg hnf]
  refine ⟨by rw [hstep], by rw [hstep], by rw [hstep], by rw [hstep], ?_⟩
  intro hc
  constructor <;> simp [runLP, hstep, hc]

/-- Witness for `recoverable_error_retries_unchanged_cursor` at a
no-response transport failure (normalised status 500). -/
theorem recoverable_error_retries_unchanged_cursor_witness :
    (lpStep initialSession (LPResponse.failure none 7)).events =
      [Event.error (normStatus none)] ∧
    (lpStep initialSession (LPResponse.failure none 7)).st = initialSession ∧
    (lpStep initialSession (LPResponse.failure none 7)).delay = 0 ∧
    buildParams (lpStep initialSession (LPResponse.failure none 7)).st =
      buildParams initialSession ∧
    (initialSession.cont = true →
      (runLP initialSession [LPResponse.failure none 7]).events =
        Event.error (normStatus none) :: (runLP initialSession []).events ∧
      (runLP initialSession [LPResponse.failure none 7]).consumed =
        (runLP initialSession []).consumed + 1) := by
  exact recoverable_error_retries_unchanged_cursor initialSession none 7 []
    (by decide)

/-!
## Pacing on empty responses (src/index.js lines 127-153)
-/

/-- The session after a fulfilled iteration: cursor possibly advanced,
`continue` possibly cleared, everything else untouched. -/
theorem lpStep_success_st (st : Session) (data : Option LPData) (elapsed : Nat) :
    (lpStep st (LPResponse.success data elapsed)).st =
      { st with since := (sinceUpdate st.since data).getD st.since
                cont := contAfter st data } := by
  simp only [lpStep, lpSuccess]
  split_ifs <;> rfl

/-- C5: after a successful response with an empty result list, when the
loop will issue another request (`continue` still true after the
iteration, or `wait` mode), the scheduled delay is 0 if the request took
longer than `timeout` and exactly `timeout - elapsed` otherwise; hence
the gap `elapsed + delay` between the two consecutive outgoing requests
is never below `timeout`. -/
theorem empty_poll_pacing
    (st : Session) (data : Option LPData) (elapsed : Nat)
    (hempty : resultsOf data = [])
    (hcont : (lpStep st (LPResponse.success data elapsed)).st.cont = true ∨
      st.wait = true) :
    (lpStep st (LPResponse.success data elapsed)).delay =
      (if st.timeout < elapsed then 0 else st.timeout - elapsed) ∧
    st.timeout ≤ elapsed + (lpStep st (LPResponse.success data elapsed)).delay := by
  have hlen : ¬(0 < (resultsOf data).length) := by simp [hempty]
  have hdelay : (lpStep st (LPResponse.success data elapsed)).delay =
      (if st.timeout < elapsed then 0 else st.timeout - elapsed) := by
    rcases hcont with hc | hw
    · by_cases hwait : st.wait
      · simp [lpStep, lpSuccess, hlen, hwait]
      · have hc2 : contAfter st data = true := by
          rw [lpStep_success_st] at hc
          exact hc
        simp [lpStep, lpSuccess, hlen, hwait, hc2]
    · simp [lpStep, lpSuccess, hlen, hw]
  refine ⟨hdelay, ?_⟩
  rw [hdelay]
  by_cases hlt : st.timeout < elapsed <;> simp [hlt] <;> omega

/-- A concrete empty long-poll response body. -/
def emptyData : LPData := { results := some [], last_seq := some "now" }

/-- Witness for `empty_poll_pacing`: an empty response arriving after
100 ms against the default 60000 ms timeout is followed by a 59900 ms
delay. -/
theorem empty_poll_pacing_witness :
    (lpStep initialSession (LPResponse.success (some emptyData) 100)).delay =
      (if initialSession.timeout < 100 then 0 else initialSession.timeout - 100) ∧
    initialSession.timeout ≤ 100 +
      (lpStep initialSession (LPResponse.success (some emptyData) 100)).delay := by
  exact empty_poll_pacing initialSession (some emptyData) 100 (by decide)
    (Or.inl (by decide))

/-!
## Structural lemmas about one iteration and about the loop
-/

/-- The change events of an iteration are exactly the `change`-tagging of
its results list (the `0 < length` guard in the code is redundant for
the empty list). -/
theorem changeEventsOf_eq (data : Option LPData) :
    changeEventsOf data = (resultsOf data).map Event.change := by
  cases data with
  | none => rfl
  | some d =>
    cases hres : d.results with
    | none => simp [changeEventsOf, resultsOf, hres]
    | some rs =>
      cases rs with
      | nil => simp [changeEventsOf, resultsOf, hres]
      | cons a l => simp [changeEventsOf, resultsOf, hres]

/-- Event trace of a fulfilled iteration: changes, then the `seq` event
(if the cursor advanced), then the `batch` event (if non-empty). -/
theorem lpStep_success_events (st : Session) (data : Option LPData) (elapsed : Nat) :
    (lpStep st (LPResponse.success data elapsed)).events =
      (resultsOf data).map Event.change ++ seqEventsOf st.since data ++
      (if 0 < (resultsOf data).length then [Event.batch (resultsOf data)] else []) := by
  simp only [lpStep, lpSuccess]
  split_ifs <;> simp_all [changeEventsOf_eq]

/-- With `stopOnEmptyChanges` off, a fulfilled iteration never clears
`continue`. -/
theorem contAfter_of_stop_false (st : Session) (data : Option LPData)
    (h : st.stopOnEmptyChanges = false) : contAfter st data = st.cont := by
  unfold contAfter
  cases data with
  | none => rfl
  | some d =>
    cases hr : d.results with
    | none => simp [hr]
    | some rs => simp [hr, h]

/-- Unfolding the loop when the iteration leaves `continue` set. -/
theorem runLP_cons_cont (st : Session) (r : LPResponse) (rest : List LPResponse)
    (h : (lpStep st r).st.cont = true) :
    runLP st (r :: rest) =
      { events := (lpStep st r).events ++ (runLP (lpStep st r).st rest).events
        st := (runLP (lpStep st r).st rest).st
        consumed := (runLP (lpStep st r).st rest).consumed + 1 } := by
  simp [runLP, h]

/-- Unfolding the loop when the iteration clears `continue`: the terminal
`end` event carries the cursor of that moment and nothing further is
consumed. -/
theorem runLP_cons_stop (st : Session) (r : LPResponse) (rest : List LPResponse)
    (h : (lpStep st r).st.cont = false) :
    runLP st (r :: rest) =
      { events := (lpStep st r).events ++ [Event.end_ (lpStep st r).st.since]
        st := setDefaults (lpStep st r).st
        consumed := 1 } := by
  simp [runLP, h]

/-- `changesOf` distributes over concatenation. -/
theorem changesOf_append (a b : List Event) :
    changesOf (a ++ b) = changesOf a ++ changesOf b := by
  simp [changesOf, List.filterMap_append]

/-- `changesOf` undoes `change`-tagging. -/
theorem changesOf_map_change (rs : List ChangeRow) :
    changesOf (rs.map Event.change) = rs := by
  induction rs with
  | nil => rfl
  | cons a l ih => simp [changesOf] at ih ⊢; exact ih

/-- `seq` events carry no change records. -/
theorem changesOf_seqEventsOf (since : String) (data : Option LPData) :
    changesOf (seqEventsOf since data) = [] := by
  unfold seqEventsOf
  cases sinceUpdate since data <;> simp [changesOf]

/-- The change records of one fulfilled iteration are exactly its results
list. -/
theorem changesOf_lpStep_success (st : Session) (data : Option LPData) (elapsed : Nat) :
    changesOf (lpStep st (LPResponse.success data elapsed)).events = resultsOf data := by
  rw [lpStep_success_events, changesOf_append, changesOf_append,
    changesOf_map_change, changesOf_seqEventsOf]
  split_ifs <;> simp [changesOf]

/-!
## C1: per-run delivery is the concatenation of the responses' results
-/

/-- Over any finite list of fulfilled responses, a run that does not
stop early (unbounded mode, `continue` set) emits exactly the
concatenation of the `results` arrays as its `change` events. -/
theorem runLP_changes_all_success :
    ∀ (resps : List LPResponse) (st : Session), st.cont = true →
      st.stopOnEmptyChanges = false →
      (∀ r ∈ resps, r.isSuccess = true) →
      changesOf (runLP st resps).events = (resps.map LPResponse.resultsList).flatten := by
  intro resps
  induction resps with
  | nil =>
    intro st _ _ _
    simp [runLP, changesOf]
  | cons r rest ih =>
    intro st hcont hstop hsucc
    cases r with
    | failure status elapsed =>
      have hr := hsucc (LPResponse.failure status elapsed) (List.mem_cons_self _ _)
      simp [LPResponse.isSuccess] at hr
    | success data elapsed =>
      have hstep := lpStep_success_st st data elapsed
      have hcont1 : (lpStep st (LPResponse.success data elapsed)).st.cont = true := by
        rw [hstep]
        show contAfter st data = true
        rw [contAfter_of_stop_false st data hstop]
        exact hcont
      have hstop1 : (lpStep st (LPResponse.success data elapsed)).st.stopOnEmptyChanges
          = false := by
        rw [hstep]
        exact hstop
      have hsucc1 : ∀ x ∈ rest, x.isSuccess = true :=
        fun x hx => hsucc x (List.mem_cons_of_mem _ hx)
      rw [runLP_cons_cont st _ rest hcont1]
      show changesOf ((lpStep st (LPResponse.success data elapsed)).events ++
        (runLP (lpStep st (LPResponse.success data elapsed)).st rest).events) = _
      rw [changesOf_append, changesOf_lpStep_success,
        ih (lpStep st (LPResponse.success data elapsed)).st hcont1 hstop1 hsucc1]
      simp [LPResponse.resultsList, LPResponse.dataOf]

/-- The change records of any single iteration (also a failed one, which
delivers none). -/
theorem changesOf_lpStep (st : Session) (r : LPResponse) :
    changesOf (lpStep st r).events = r.resultsList := by
  cases r with
  | success data elapsed =>
    rw [changesOf_lpStep_success]
    rfl
  | failure status elapsed =>
    show changesOf (lpFailure st status).events = _
    simp only [lpFailure]
    split_ifs <;> simp [changesOf, LPResponse.resultsList, LPResponse.dataOf, resultsOf]

/-- In any mode (bounded `get` runs included), the change events of a run
are the concatenation of the results of exactly the consumed prefix of
the responses. -/
theorem runLP_changes_prefix :
    ∀ (resps : List LPResponse) (st : Session),
      changesOf (runLP st resps).events =
        ((resps.take (runLP st resps).consumed).map LPResponse.resultsList).flatten := by
  intro resps
  induction resps with
  | nil =>
    intro st
    simp [runLP, changesOf]
  | cons r rest ih =>
    intro st
    cases hcb : (lpStep st r).st.cont with
    | true =>
      rw [runLP_cons_cont st r rest hcb]
      show changesOf ((lpStep st r).events ++ (runLP (lpStep st r).st rest).events) =
        (((r :: rest).take ((runLP (lpStep st r).st rest).consumed + 1)).map
          LPResponse.resultsList).flatten
      rw [changesOf_append, changesOf_lpStep, List.take_succ_cons,
        ih (lpStep st r).st]
      simp
    | false =>
      rw [runLP_cons_stop st r rest hcb]
      show changesOf ((lpStep st r).events ++ [Event.end_ (lpStep st r).st.since]) =
        (((r :: rest).take 1).map LPResponse.resultsList).flatten
      rw [changesOf_append, changesOf_lpStep]
      simp [changesOf]

/-- C1: the change events of a run are the results arrays of the consumed
responses, concatenated in arrival order, with no reordering, drops or
duplicates; in particular an unbounded run over fulfilled responses
emits exactly the concatenation of all their results arrays. -/
theorem run_change_events_eq_results_concat :
    (∀ (st : Session) (resps : List LPResponse),
      changesOf (runLP st resps).events =
        ((resps.take (runLP st resps).consumed).map LPResponse.resultsList).flatten) ∧
    (∀ (resps : List LPResponse) (st : Session), st.cont = true →
      st.stopOnEmptyChanges = false →
      (∀ r ∈ resps, r.isSuccess = true) →
      changesOf (runLP st resps).events = (resps.map LPResponse.resultsList).flatten) :=
  ⟨fun st resps => runLP_changes_prefix resps st, runLP_changes_all_success⟩

/-- A concrete two-record response body. -/
def dataAB : LPData := { results := some [rowA, rowB], last_seq := some "2-b" }

/-- A concrete one-record response body. -/
def dataC : LPData := { results := some [rowC], last_seq := some "3-c" }

/-- Witness for `run_change_events_eq_results_concat`: two fulfilled
responses delivering [rowA, rowB] and [rowC] produce exactly the change
events rowA, rowB, rowC in order. -/
theorem run_change_events_eq_results_concat_witness :
    changesOf (runLP initialSession
        [LPResponse.success (some dataAB) 10, LPResponse.success (some dataC) 5]).events =
      ([LPResponse.success (some dataAB) 10,
        LPResponse.success (some dataC) 5].map LPResponse.resultsList).flatten := by
  exact run_change_events_eq_results_concat.2
    [LPResponse.success (some dataAB) 10, LPResponse.success (some dataC) 5]
    initialSession (by decide) (by decide) (by decide)

/-!
## C6: `get` is bounded `start`
-/

/-- C6: `get` equals `start` on a session whose `stopOnEmptyChanges` is
forced true; and in a bounded run, a fulfilled response with a defined
result list shorter than `batchSize` clears `continue`, after which the
run terminates having still emitted that iteration's change/seq/batch
events, followed only by the terminal `end`. -/
theorem get_is_bounded_start :
    (∀ (s : Session) (opts : Opts),
      ChangesReader.get s opts =
        ChangesReader.start { s with stopOnEmptyChanges := true } opts) ∧
    (∀ (st : Session) (d : LPData) (elapsed : Nat) (rest : List LPResponse)
        (rs : List ChangeRow),
      st.stopOnEmptyChanges = true → d.results = some rs →
      rs.length < st.batchSize →
      (lpStep st (LPResponse.success (some d) elapsed)).st.cont = false ∧
      (runLP st (LPResponse.success (some d) elapsed :: rest)).events =
        (lpStep st (LPResponse.success (some d) elapsed)).events ++
          [Event.end_ (lpStep st (LPResponse.success (some d) elapsed)).st.since] ∧
      (runLP st (LPResponse.success (some d) elapsed :: rest)).consumed = 1 ∧
      (lpStep st (LPResponse.success (some d) elapsed)).events =
        rs.map Event.change ++ seqEventsOf st.since (some d) ++
          (if 0 < rs.length then [Event.batch rs] else [])) := by
  constructor
  · intro s opts
    rfl
  · intro st d elapsed rest rs hstop hres hlen
    have hrs : resultsOf (some d) = rs := by simp [resultsOf, hres]
    have hca : contAfter st (some d) = false := by
      unfold contAfter
      simp [hres, hstop, hlen]
    have hcont0 : (lpStep st (LPResponse.success (some d) elapsed)).st.cont = false := by
      rw [lpStep_success_st]
      exact hca
    refine ⟨hcont0, ?_, ?_, ?_⟩
    · rw [runLP_cons_stop st _ rest hcont0]
    · rw [runLP_cons_stop st _ rest hcont0]
    · rw [lpStep_success_events, hrs]

/-- A session in bounded mode (what `get` hands to the loop). -/
def boundedSession : Session := { initialSession with stopOnEmptyChanges := true }

/-- Witness for `get_is_bounded_start`: a bounded run receiving one
record (fewer than the default batchSize 100) emits it, advances the
cursor, emits `batch`, then terminates with `end`. -/
theorem get_is_bounded_start_witness :
    ChangesReader.get initialSession noOpts =
      ChangesReader.start { initialSession with stopOnEmptyChanges := true } noOpts ∧
    (lpStep boundedSession (LPResponse.success (some dataC) 4)).st.cont = false ∧
    (runLP boundedSession [LPResponse.success (some dataC) 4]).events =
      (lpStep boundedSession (LPResponse.success (some dataC) 4)).events ++
        [Event.end_ (lpStep boundedSession (LPResponse.success (some dataC) 4)).st.since] ∧
    (runLP boundedSession [LPResponse.success (some dataC) 4]).consumed = 1 := by
  have h := get_is_bounded_start
  have h2 := h.2 boundedSession dataC 4 [] [rowC] (by decide) (by decide) (by decide)
  exact ⟨h.1 initialSession noOpts, h2.1, h2.2.1, h2.2.2.1⟩

/-!
## C8: re-entrant `start`/`get` on a started session

`start` on a started session really is a no-op that returns the existing
emitter (src/index.js lines 64-67). `get`, however, assigns
`this.stopOnEmptyChanges = true` *before* delegating to `start`
(line 187), so on a started unbounded session `get` does mutate session
state: the claim as stated fails on `get`.
-/

/-- A session that is already running an unbounded `start` run. -/
def startedSession : Session := { initialSession with started := true }

/-- Counterexample to C8 as stated: on a started session with
`stopOnEmptyChanges = false`, calling `get` is not a no-op on session
state (it flips `stopOnEmptyChanges` to true before `start` returns the
existing emitter). -/
theorem get_on_started_session_not_noop :
    startedSession.started = true ∧
    (ChangesReader.get startedSession noOpts).1 ≠ startedSession := by
  decide

/-- C8 amended: on a started session, `start` returns the existing
emitter and leaves the session untouched (no second run); `get` also
returns the existing emitter and begins no second run, but its one state
effect is setting `stopOnEmptyChanges` to true. -/
theorem start_idempotent_get_sets_stopOnEmpty
    (s : Session) (opts : Opts) (h : s.started = true) :
    ChangesReader.start s opts = (s, s.eeId) ∧
    ChangesReader.get s opts = ({ s with stopOnEmptyChanges := true }, s.eeId) := by
  constructor
  · simp [ChangesReader.start, h]
  · simp [ChangesReader.get, ChangesReader.start, h]

/-- Witness for `start_idempotent_get_sets_stopOnEmpty` on a concrete
started session. -/
theorem start_idempotent_get_sets_stopOnEmpty_witness :
    startedSession.started = true ∧
    ChangesReader.start startedSession noOpts = (startedSession, startedSession.eeId) ∧
    ChangesReader.get startedSession noOpts =
      ({ startedSession with stopOnEmptyChanges := true }, startedSession.eeId) := by
  have h := start_idempotent_get_sets_stopOnEmpty startedSession noOpts (by decide)
  exact ⟨by decide, h.1, h.2⟩

/-!
## C9: the batch accumulator silently discards unparseable lines
-/

/-- C9: a chunk that fails to parse after stripping a trailing comma
leaves the processor state exactly as it was — no event of any kind is
appended (in particular no `error` event; the processor only ever emits
`batch` events), the buffer and `lastSeq` are unchanged — and the
remaining chunks are processed as if the bad line had never arrived. -/
theorem unparseable_line_discarded
    (parse : String → Option ChangeRow) (batchSize : Nat) (st : CPState)
    (chunk : String) (h : parse (stripComma chunk) = none) :
    cpTransform parse batchSize st chunk = st ∧
    (cpTransform parse batchSize st chunk).events = st.events ∧
    (cpTransform parse batchSize st chunk).buffer = st.buffer ∧
    (∀ rest : List String,
      (chunk :: rest).foldl (cpTransform parse batchSize) st =
        rest.foldl (cpTransform parse batchSize) st) := by
  have h1 : cpTransform parse batchSize st chunk = st := by
    simp [cpTransform, h]
  refine ⟨h1, by rw [h1], by rw [h1], ?_⟩
  intro rest
  simp [List.foldl_cons, h1]

/-- A concrete stand-in for `JSON.parse` over three known record lines;
everything else (envelope brackets, blank lines) throws, i.e. `none`. -/
def demoParse (s : String) : Option ChangeRow :=
  if s = "rA" then some rowA
  else if s = "rB" then some rowB
  else if s = "rC" then some rowC
  else none

/-- Witness for `unparseable_line_discarded`: the envelope-open line `[`
is dropped without touching state, and the following lines still parse. -/
theorem unparseable_line_discarded_witness :
    cpTransform demoParse 2 cpInit "[" = cpInit ∧
    (cpTransform demoParse 2 cpInit "[").events = cpInit.events ∧
    (cpTransform demoParse 2 cpInit "[").buffer = cpInit.buffer ∧
    (∀ rest : List String,
      ("[" :: rest).foldl (cpTransform demoParse 2) cpInit =
        rest.foldl (cpTransform demoParse 2) cpInit) := by
  exact unparseable_line_discarded demoParse 2 cpInit "[" (by decide)

/-!
## C10: a rejected spool request is silent
-/

/-- C10: `spool`'s `axios(req).then(...)` chain registers no rejection
handler, so when the request promise rejects before a response stream
exists, the emitter sees nothing at all: no `error` event, no `end`
event. -/
theorem spool_rejected_emits_nothing
    (parse : String → Option ChangeRow) (batchSize : Nat) :
    spoolEvents parse batchSize SpoolOutcome.rejected = [] ∧
    (∀ s : Nat, Event.error s ∉ spoolEvents parse batchSize SpoolOutcome.rejected) ∧
    (∀ t : String, Event.end_ t ∉ spoolEvents parse batchSize SpoolOutcome.rejected) := by
  refine ⟨rfl, ?_, ?_⟩ <;> intro x <;> simp [spoolEvents]

/-!
## C4: streaming-mode batching
-/

/-- `batchLists` distributes over concatenation. -/
theorem batchLists_append (a b : List Event) :
    batchLists (a ++ b) = batchLists a ++ batchLists b := by
  simp [batchLists, List.filterMap_append]

/-- Feeding a chunk list through `_transform` is the same as feeding just
its successfully parsed records: unparseable lines are invisible. -/
theorem cpFold_eq_pushFold (parse : String → Option ChangeRow) (b : Nat) :
    ∀ (chunks : List String) (st : CPState),
      chunks.foldl (cpTransform parse b) st =
        (parsedRecs parse chunks).foldl (cpPush b) st := by
  intro chunks
  induction chunks with
  | nil => intro st; simp [parsedRecs]
  | cons c cs ih =>
    intro st
    cases hp : parse (stripComma c) with
    | none =>
      simp [List.foldl_cons, cpTransform, hp, parsedRecs, List.filterMap_cons, ih]
    | some j =>
      simp [List.foldl_cons, cpTransform, hp, parsedRecs, List.filterMap_cons, ih]

/-- One `cpPush` under the invariant `buffer.length < batchSize`:
the invariant is preserved, the concatenation of emitted batches plus
the buffer grows by exactly the pushed record, every emitted batch has
length exactly `batchSize`, the count/remainder arithmetic advances by
one, and `lastSeq` stays the `seq` of the last record delivered. -/
theorem cpPush_step (b : Nat) (hb : 1 ≤ b) (st : CPState) (r : ChangeRow)
    (hlt : st.buffer.length < b) :
    (cpPush b st r).buffer.length < b ∧
    (batchLists (cpPush b st r).events).flatten ++ (cpPush b st r).buffer =
      (batchLists st.events).flatten ++ st.buffer ++ [r] ∧
    (∀ l ∈ batchLists (cpPush b st r).events,
      l ∈ batchLists st.events ∨ l.length = b) ∧
    b * (batchLists (cpPush b st r).events).length + (cpPush b st r).buffer.length =
      b * (batchLists st.events).length + st.buffer.length + 1 ∧
    (st.lastSeq = (((batchLists st.events).flatten.getLast?).map ChangeRow.seq).getD "0" →
      (cpPush b st r).lastSeq =
        (((batchLists (cpPush b st r).events).flatten.getLast?).map ChangeRow.seq).getD "0") := by
  by_cases hc : b ≤ st.buffer.length + 1
  · have hlen : st.buffer.length + 1 = b := by omega
    have htake : (st.buffer ++ [r]).take b = st.buffer ++ [r] :=
      List.take_of_length_le (by simp; omega)
    have hdrop : (st.buffer ++ [r]).drop b = [] :=
      List.drop_eq_nil_of_le (by simp; omega)
    have e1 : cpPush b st r =
        { buffer := [], lastSeq := ChangeRow.seq r
          events := st.events ++ [Event.batch (st.buffer ++ [r])] } := by
      simp [cpPush, cpEmit, htake, hdrop, List.getLast?_concat, hc]
    rw [e1]
    have hflat : (batchLists (st.events ++ [Event.batch (st.buffer ++ [r])])).flatten =
        (batchLists st.events).flatten ++ (st.buffer ++ [r]) := by
      simp [batchLists_append, batchLists, List.flatten_append]
    refine ⟨by simp; omega, ?_, ?_, ?_, ?_⟩
    · show (batchLists (st.events ++ [Event.batch (st.buffer ++ [r])])).flatten ++ [] = _
      rw [List.append_nil, hflat]
      simp [List.append_assoc]
    · intro l hl
      rw [batchLists_append] at hl
      rcases List.mem_append.mp hl with h1 | h1
      · exact Or.inl h1
      · right
        have : l = st.buffer ++ [r] := by simpa [batchLists] using h1
        rw [this]
        simp
        omega
    · show b * (batchLists (st.events ++ [Event.batch (st.buffer ++ [r])])).length + _ = _
      rw [batchLists_append]
      simp [batchLists, Nat.mul_succ]
      omega
    · intro _
      show ChangeRow.seq r = _
      rw [hflat, List.getLast?_append_of_ne_nil _ (by simp), List.getLast?_concat]
      rfl
  · have e2 : cpPush b st r = { st with buffer := st.buffer ++ [r] } := by
      simp [cpPush, hc]
    rw [e2]
    refine ⟨by simp; omega, by simp [List.append_assoc], fun l hl => Or.inl hl,
      by simp; omega, fun h => h⟩

/-- Iterated `cpPush` under the buffer invariant (induction over the
record list). -/
theorem cpPush_foldl_spec (b : Nat) (hb : 1 ≤ b) :
    ∀ (rs : List ChangeRow) (st : CPState), st.buffer.length < b →
      (rs.foldl (cpPush b) st).buffer.length < b ∧
      (batchLists (rs.foldl (cpPush b) st).events).flatten ++
          (rs.foldl (cpPush b) st).buffer =
        (batchLists st.events).flatten ++ st.buffer ++ rs ∧
      (∀ l ∈ batchLists (rs.foldl (cpPush b) st).events,
        l ∈ batchLists st.events ∨ l.length = b) ∧
      b * (batchLists (rs.foldl (cpPush b) st).events).length +
          (rs.foldl (cpPush b) st).buffer.length =
        b * (batchLists st.events).length + st.buffer.length + rs.length ∧
      (st.lastSeq = (((batchLists st.events).flatten.getLast?).map ChangeRow.seq).getD "0" →
        (rs.foldl (cpPush b) st).lastSeq =
          (((batchLists (rs.foldl (cpPush b) st).events).flatten.getLast?).map
            ChangeRow.seq).getD "0") := by
  intro rs
  induction rs with
  | nil =>
    intro st h
    exact ⟨h, by simp, fun l hl => Or.inl hl, by simp, fun h2 => h2⟩
  | cons r rs ih =>
    intro st h
    obtain ⟨s1, s2, s3, s4, s5⟩ := cpPush_step b hb st r h
    obtain ⟨t1, t2, t3, t4, t5⟩ := ih (cpPush b st r) s1
    rw [List.foldl_cons]
    refine ⟨t1, ?_, ?_, ?_, fun h0 => t5 (s5 h0)⟩
    · rw [t2, s2]
      simp [List.append_assoc]
    · intro l hl
      rcases t3 l hl with h1 | h1
      · exact s3 l h1
      · exact Or.inr h1
    · rw [t4, s4]
      simp [List.length_cons]
      omega

/-- `_flush`: the buffer is emptied; a non-empty remainder becomes one
final batch; the `lastSeq` invariant is preserved. -/
theorem cpFlush_spec (st : CPState) :
    (cpFlush st).buffer = [] ∧
    batchLists (cpFlush st).events =
      (if 0 < st.buffer.length then batchLists st.events ++ [st.buffer]
       else batchLists st.events) ∧
    (st.lastSeq = (((batchLists st.events).flatten.getLast?).map ChangeRow.seq).getD "0" →
      (cpFlush st).lastSeq =
        (((batchLists (cpFlush st).events).flatten.getLast?).map ChangeRow.seq).getD "0") := by
  by_cases hc : 0 < st.buffer.length
  · have hne : st.buffer ≠ [] := by
      cases hb : st.buffer with
      | nil => rw [hb] at hc; simp at hc
      | cons a l => simp
    obtain ⟨a, ha⟩ : ∃ a, st.buffer.getLast? = some a := by
      cases hgl : st.buffer.getLast? with
      | none => exact absurd (List.getLast?_eq_none_iff.mp hgl) hne
      | some a => exact ⟨a, rfl⟩
    have e1 : cpFlush st =
        { buffer := [], lastSeq := ChangeRow.seq a
          events := st.events ++ [Event.batch st.buffer] } := by
      simp [cpFlush, if_pos hc, cpEmit, ha]
    rw [e1]
    refine ⟨rfl, by simp [batchLists_append, batchLists, if_pos hc], ?_⟩
    intro _
    show ChangeRow.seq a = _
    have hflat : (batchLists (st.events ++ [Event.batch st.buffer])).flatten =
        (batchLists st.events).flatten ++ st.buffer := by
      simp [batchLists_append, batchLists, List.flatten_append]
    rw [hflat, List.getLast?_append_of_ne_nil _ hne, ha]
    rfl
  · have hbuf : st.buffer = [] := by
      cases hb : st.buffer with
      | nil => rfl
      | cons a l => rw [hb] at hc; simp at hc
    have e1 : cpFlush st = st := by simp [cpFlush, hc]
    rw [e1]
    exact ⟨hbuf, by simp [hc], fun h => h⟩

/-- Ceiling-division arithmetic: with remainder `r < b`, the batch count
`k` plus one extra batch exactly when the remainder is non-zero equals
`⌈(b k + r) / b⌉` written as `(b k + r + b - 1) / b`. -/
theorem ceil_aux (b k r : Nat) (hb : 0 < b) (hr : r < b) :
    (b * k + r + b - 1) / b = k + (if 0 < r then 1 else 0) := by
  by_cases h0 : 0 < r
  · rw [if_pos h0]
    have e : b * k + r + b - 1 = (r - 1) + b * (k + 1) := by
      rw [Nat.mul_succ]
      omega
    rw [e, Nat.add_mul_div_left _ _ hb, Nat.div_eq_of_lt (by omega)]
    omega
  · rw [if_neg h0]
    have e : b * k + r + b - 1 = (b - 1) + b * k := by omega
    rw [e, Nat.add_mul_div_left _ _ hb, Nat.div_eq_of_lt (by omega)]
    omega

/-- Full characterisation of one streaming run of the change processor:
the emitted batches concatenate to exactly the parsed records in order;
every batch except possibly the last has length exactly `batchSize`;
there are `⌈N / batchSize⌉` of them; and the exposed `lastSeq` is the
`seq` of the last record (or the initial "0" when there is none). -/
theorem runCP_spec (parse : String → Option ChangeRow) (b : Nat) (hb : 1 ≤ b)
    (chunks : List String) :
    (batchLists (runCP parse b chunks).events).flatten = parsedRecs parse chunks ∧
    (∀ l ∈ (batchLists (runCP parse b chunks).events).dropLast, l.length = b) ∧
    (batchLists (runCP parse b chunks).events).length =
      ((parsedRecs parse chunks).length + b - 1) / b ∧
    (runCP parse b chunks).lastSeq =
      (((parsedRecs parse chunks).getLast?).map ChangeRow.seq).getD "0" := by
  have hfold := cpFold_eq_pushFold parse b chunks cpInit
  obtain ⟨A, B, C, D, E⟩ :=
    cpPush_foldl_spec b hb (parsedRecs parse chunks) cpInit (by simp [cpInit]; omega)
  set st2 := (parsedRecs parse chunks).foldl (cpPush b) cpInit with hst2
  have B' : (batchLists st2.events).flatten ++ st2.buffer = parsedRecs parse chunks := by
    simpa [cpInit, batchLists] using B
  have D' : b * (batchLists st2.events).length + st2.buffer.length =
      (parsedRecs parse chunks).length := by
    simpa [cpInit, batchLists] using D
  have E' : st2.lastSeq =
      (((batchLists st2.events).flatten.getLast?).map ChangeRow.seq).getD "0" := by
    apply E
    simp [cpInit, batchLists]
  have C' : ∀ l ∈ batchLists st2.events, l.length = b := by
    intro l hl
    rcases C l hl with h1 | h1
    · simp [cpInit, batchLists] at h1
    · exact h1
  obtain ⟨F1, F2, F3⟩ := cpFlush_spec st2
  have hrun : runCP parse b chunks = cpFlush st2 := by
    rw [runCP, hfold]
  rw [hrun]
  have hFlast := F3 E'
  by_cases hc : 0 < st2.buffer.length
  · rw [if_pos hc] at F2
    have hflatF : (batchLists (cpFlush st2).events).flatten = parsedRecs parse chunks := by
      rw [F2, List.flatten_append]
      simp only [List.flatten_cons, List.flatten_nil, List.append_nil]
      exact B'
    refine ⟨hflatF, ?_, ?_, ?_⟩
    · intro l hl
      rw [F2, List.dropLast_concat] at hl
      exact C' l hl
    · rw [F2]
      simp only [List.length_append, List.length_cons, List.length_nil]
      have hN : (parsedRecs parse chunks).length =
          b * (batchLists st2.events).length + st2.buffer.length := D'.symm
      rw [hN, ceil_aux b (batchLists st2.events).length st2.buffer.length
        (by omega) A, if_pos hc]
    · rw [hFlast, hflatF]
  · rw [if_neg hc] at F2
    have hbuf : st2.buffer = [] := by
      cases hb2 : st2.buffer with
      | nil => rfl
      | cons a l => rw [hb2] at hc; simp at hc
    have hflatF : (batchLists (cpFlush st2).events).flatten = parsedRecs parse chunks := by
      rw [F2, ← B', hbuf, List.append_nil]
    refine ⟨hflatF, ?_, ?_, ?_⟩
    · intro l hl
      rw [F2] at hl
      exact C' l (List.mem_of_mem_dropLast hl)
    · rw [F2]
      have hN : (parsedRecs parse chunks).length =
          b * (batchLists st2.events).length + st2.buffer.length := D'.symm
      rw [hN, ceil_aux b (batchLists st2.events).length st2.buffer.length
        (by omega) A, if_neg hc]
      omega
    · rw [hFlast, hflatF]

/-- C4: for any stream of lines of which exactly the parseable ones are
records, and any `batchSize > 0`, the accumulator emits
`⌈N / batchSize⌉` batches (written `(N + batchSize - 1) / batchSize`),
whose concatenation is exactly the record list in order (full batches of
size `batchSize`, except possibly the final flushed one), and its
exposed `lastSeq` is the `seq` of the last record. -/
theorem streaming_batching
    (parse : String → Option ChangeRow) (batchSize : Nat) (chunks : List String)
    (hb : 0 < batchSize) :
    (batchLists (runCP parse batchSize chunks).events).length =
      ((parsedRecs parse chunks).length + batchSize - 1) / batchSize ∧
    (batchLists (runCP parse batchSize chunks).events).flatten =
      parsedRecs parse chunks ∧
    (∀ l ∈ (batchLists (runCP parse batchSize chunks).events).dropLast,
      l.length = batchSize) ∧
    (runCP parse batchSize chunks).lastSeq =
      (((parsedRecs parse chunks).getLast?).map ChangeRow.seq).getD "0" := by
  obtain ⟨h1, h2, h3, h4⟩ := runCP_spec parse batchSize hb chunks
  exact ⟨h3, h1, h2, h4⟩

/-- Witness for `streaming_batching`: 3 records framed by envelope lines
and trailing commas, batch size 2: two batches ([rA, rB] then the
flushed [rC]), last sequence token "3-c". -/
theorem streaming_batching_witness :
    (batchLists (runCP demoParse 2 ["[", "rA,", "rB,", "", "rC", "]"]).events).length =
      ((parsedRecs demoParse ["[", "rA,", "rB,", "", "rC", "]"]).length + 2 - 1) / 2 ∧
    (batchLists (runCP demoParse 2 ["[", "rA,", "rB,", "", "rC", "]"]).events).flatten =
      parsedRecs demoParse ["[", "rA,", "rB,", "", "rC", "]"] ∧
    (∀ l ∈ (batchLists (runCP demoParse 2 ["[", "rA,", "rB,", "", "rC", "]"]).events).dropLast,
      l.length = 2) ∧
    (runCP demoParse 2 ["[", "rA,", "rB,", "", "rC", "]"]).lastSeq =
      (((parsedRecs demoParse ["[", "rA,", "rB,", "", "rC", "]"]).getLast?).map
        ChangeRow.seq).getD "0" := by
  exact streaming_batching demoParse 2 ["[", "rA,", "rB,", "", "rC", "]"] (by decide)

/-!
## C7: cursor provenance and the tokens of `seq`/`end` events
-/

/-- `seqTokens` distributes over concatenation. -/
theorem seqTokens_append (a b : List Event) :
    seqTokens (a ++ b) = seqTokens a ++ seqTokens b := by
  simp [seqTokens, List.filterMap_append]

/-- `change` events carry no sequence token. -/
theorem seqTokens_map_change (rs : List ChangeRow) :
    seqTokens (rs.map Event.change) = [] := by
  simp [seqTokens]

/-- The cursor after one iteration, uniformly over success and failure:
a failure never moves it. -/
theorem lpStep_st_since (st : Session) (r : LPResponse) :
    (lpStep st r).st.since = (sinceUpdate st.since r.dataOf).getD st.since := by
  cases r with
  | success data elapsed =>
    rw [lpStep_success_st]
    rfl
  | failure status elapsed =>
    show (lpFailure st status).st.since = _
    simp only [lpFailure]
    split_ifs <;> simp [sinceUpdate, LPResponse.dataOf]

/-- A failed iteration emits exactly one `error` event. -/
theorem lpFailure_events (st : Session) (status : Option Nat) :
    (lpFailure st status).events = [Event.error (normStatus status)] := by
  simp only [lpFailure]
  split_ifs <;> rfl

/-- The `seq` tokens of one iteration: the cursor update, if any. -/
theorem seqTokens_lpStep (st : Session) (r : LPResponse) :
    seqTokens (lpStep st r).events = (sinceUpdate st.since r.dataOf).toList := by
  cases r with
  | success data elapsed =>
    rw [lpStep_success_events, seqTokens_append, seqTokens_append, seqTokens_map_change]
    show [] ++ seqTokens (seqEventsOf st.since data) ++ _ = _
    have h2 : seqTokens (if 0 < (resultsOf data).length
        then [Event.batch (resultsOf data)] else []) = [] := by
      split <;> simp [seqTokens]
    rw [h2]
    unfold seqEventsOf
    cases hupd : sinceUpdate st.since data <;>
      simp [seqTokens, LPResponse.dataOf, hupd]
  | failure status elapsed =>
    show seqTokens (lpFailure st status).events = _
    rw [lpFailure_events]
    simp [seqTokens, sinceUpdate, LPResponse.dataOf]

/-- No single iteration ever emits the terminal `end` event (only the
loop's completion callback does). -/
theorem end_not_in_lpStep (st : Session) (r : LPResponse) (s : String) :
    Event.end_ s ∉ (lpStep st r).events := by
  intro hs
  cases r with
  | success data elapsed =>
    rw [lpStep_success_events] at hs
    rcases List.mem_append.mp hs with h | h
    · rcases List.mem_append.mp h with h1 | h1
      · obtain ⟨c, _, hc⟩ := List.mem_map.mp h1
        exact Event.noConfusion hc
      · unfold seqEventsOf at h1
        cases hupd : sinceUpdate st.since data <;> rw [hupd] at h1 <;> simp at h1
    · split at h <;> simp at h
  | failure status elapsed =>
    rw [show (lpStep st (LPResponse.failure status elapsed)).events =
      (lpFailure st status).events from rfl, lpFailure_events] at hs
    simp at hs

/-- A successful cursor update comes from a present `last_seq`. -/
theorem sinceUpdate_eq_some (since : String) (data : Option LPData) (u : String)
    (h : sinceUpdate since data = some u) :
    ∃ d, data = some d ∧ d.last_seq = some u := by
  cases data with
  | none => simp [sinceUpdate] at h
  | some d =>
    cases hls : d.last_seq with
    | none => simp [sinceUpdate, hls] at h
    | some s =>
      refine ⟨d, rfl, ?_⟩
      rw [hls]
      simp only [sinceUpdate, hls] at h
      split_ifs at h with hcond
      exact h

/-- The `seq`-token trace of a run equals the successive cursor
assignments over the consumed prefix of the responses, and any terminal
`end` event carries exactly the cursor value after the last observed
update. -/
theorem runLP_cursor_spec :
    ∀ (resps : List LPResponse) (st : Session),
      seqTokens (runLP st resps).events =
        cursorUpdates st.since (resps.take (runLP st resps).consumed) ∧
      (∀ s, Event.end_ s ∈ (runLP st resps).events →
        s = finalCursor st.since (resps.take (runLP st resps).consumed)) := by
  intro resps
  induction resps with
  | nil =>
    intro st
    constructor
    · simp [runLP, seqTokens, cursorUpdates]
    · intro s hs
      simp [runLP] at hs
  | cons r rest ih =>
    intro st
    cases hcb : (lpStep st r).st.cont with
    | true =>
      rw [runLP_cons_cont st r rest hcb]
      obtain ⟨ih1, ih2⟩ := ih (lpStep st r).st
      constructor
      · show seqTokens ((lpStep st r).events ++ (runLP (lpStep st r).st rest).events) =
          cursorUpdates st.since
            ((r :: rest).take ((runLP (lpStep st r).st rest).consumed + 1))
        rw [seqTokens_append, seqTokens_lpStep, ih1, List.take_succ_cons,
          lpStep_st_since]
        cases hupd : sinceUpdate st.since r.dataOf with
        | some u => simp [cursorUpdates, hupd]
        | none => simp [cursorUpdates, hupd]
      · intro s hs
        show s = finalCursor st.since
          ((r :: rest).take ((runLP (lpStep st r).st rest).consumed + 1))
        rw [List.take_succ_cons]
        rcases List.mem_append.mp hs with h1 | h1
        · exact absurd h1 (end_not_in_lpStep st r s)
        · have h2 := ih2 s h1
          rw [lpStep_st_since] at h2
          rw [h2]
          rfl
    | false =>
      rw [runLP_cons_stop st r rest hcb]
      constructor
      · show seqTokens ((lpStep st r).events ++ [Event.end_ (lpStep st r).st.since]) =
          cursorUpdates st.since ((r :: rest).take 1)
        rw [seqTokens_append, seqTokens_lpStep]
        have hend : seqTokens [Event.end_ (lpStep st r).st.since] = [] := by
          simp [seqTokens]
        rw [hend, List.append_nil]
        have htake : (r :: rest).take 1 = [r] := by simp
        rw [htake]
        cases hupd : sinceUpdate st.since r.dataOf <;> simp [cursorUpdates, hupd]
      · intro s hs
        rcases List.mem_append.mp hs with h1 | h1
        · exact absurd h1 (end_not_in_lpStep st r s)
        · have hse : s = (lpStep st r).st.since := by simpa using h1
          show s = finalCursor st.since ((r :: rest).take 1)
          have htake : (r :: rest).take 1 = [r] := by simp
          rw [hse, lpStep_st_since, htake]
          rfl

/-- Every value the cursor is ever assigned is one the server returned as
`last_seq`. -/
theorem cursorUpdates_subset_serverLastSeqs :
    ∀ (resps : List LPResponse) (since s : String),
      s ∈ cursorUpdates since resps → s ∈ serverLastSeqs resps := by
  intro resps
  induction resps with
  | nil =>
    intro since s hs
    simp [cursorUpdates] at hs
  | cons r rest ih =>
    intro since s hs
    cases hupd : sinceUpdate since r.dataOf with
    | some u =>
      rw [cursorUpdates, hupd] at hs
      obtain ⟨d, hd, hls⟩ := sinceUpdate_eq_some since r.dataOf u hupd
      have hhead : serverLastSeqs (r :: rest) = u :: serverLastSeqs rest := by
        simp [serverLastSeqs, List.filterMap_cons, hd, hls]
      rw [hhead]
      rcases List.mem_cons.mp hs with h1 | h1
      · exact h1 ▸ List.mem_cons_self u _
      · exact List.mem_cons_of_mem u (ih u s h1)
    | none =>
      rw [cursorUpdates, hupd] at hs
      have h1 := ih since s hs
      cases hfr : (match r.dataOf with
        | some d => d.last_seq
        | none => none) with
      | none =>
        have : serverLastSeqs (r :: rest) = serverLastSeqs rest := by
          simp [serverLastSeqs, List.filterMap_cons, hfr]
        rw [this]
        exact h1
      | some v =>
        have : serverLastSeqs (r :: rest) = v :: serverLastSeqs rest := by
          simp [serverLastSeqs, List.filterMap_cons, hfr]
        rw [this]
        exact List.mem_cons_of_mem v h1

/-- C7: within a run, (i) the tokens of `seq` events are exactly the
successive values assigned to the `since` cursor over the consumed
responses, (ii) a terminal `end` event carries the cursor after the last
observed `last_seq`, (iii) the cursor is only ever assigned values the
server returned as `last_seq`; and for the accumulator, `lastSeq` ends
as the `seq` of the most recently delivered record ("0" if none). -/
theorem cursor_provenance :
    (∀ (st : Session) (resps : List LPResponse),
      seqTokens (runLP st resps).events =
        cursorUpdates st.since (resps.take (runLP st resps).consumed) ∧
      (∀ s, Event.end_ s ∈ (runLP st resps).events →
        s = finalCursor st.since (resps.take (runLP st resps).consumed)) ∧
      (∀ s, s ∈ cursorUpdates st.since resps → s ∈ serverLastSeqs resps)) ∧
    (∀ (parse : String → Option ChangeRow) (b : Nat) (chunks : List String),
      1 ≤ b →
      (runCP parse b chunks).lastSeq =
        (((parsedRecs parse chunks).getLast?).map ChangeRow.seq).getD "0") := by
  constructor
  · intro st resps
    obtain ⟨h1, h2⟩ := runLP_cursor_spec resps st
    exact ⟨h1, h2, fun s hs => cursorUpdates_subset_serverLastSeqs resps st.since s hs⟩
  · intro parse b chunks hb
    exact (runCP_spec parse b hb chunks).2.2.2

/-- Witness for `cursor_provenance` on concrete runs: the long-poll part
at a two-response run, the accumulator part at three records with batch
size 2 (whose last `seq` is "3-c"). -/
theorem cursor_provenance_witness :
    seqTokens (runLP initialSession
        [LPResponse.success (some dataAB) 10, LPResponse.success (some dataC) 5]).events =
      cursorUpdates initialSession.since
        ([LPResponse.success (some dataAB) 10, LPResponse.success (some dataC) 5].take
          (runLP initialSession
            [LPResponse.success (some dataAB) 10,
              LPResponse.success (some dataC) 5]).consumed) ∧
    (runCP demoParse 2 ["rA,", "rB,", "rC"]).lastSeq =
      (((parsedRecs demoParse ["rA,", "rB,", "rC"]).getLast?).map ChangeRow.seq).getD "0" := by
  exact ⟨(cursor_provenance.1 initialSession
      [LPResponse.success (some dataAB) 10, LPResponse.success (some dataC) 5]).1,
    cursor_provenance.2 demoParse 2 ["rA,", "rB,", "rC"] (by decide)⟩
